import Mathlib

/-!
Verification of the MemMachine playground chat application
(`app.py`, `gateway_client.py`) against its natural-language specification.

The Python source is shallowly embedded: every definition below is a direct
translation of a function or handler of the source, with
  * Python dicts as association lists with dict semantics (first matching key
    wins, assignment updates in place or appends, `pop` removes the entry);
  * Streamlit `st.session_state` as an explicit record (`UIState`) that is
    threaded through the state-transition functions;
  * network calls as explicit parameters (a rewrite gateway function, an
    `Except` network outcome), so that "the call is never made" is expressed
    as independence from that parameter and "the call raised" as an
    `Except.error` value.
Exceptional paths of the source that abort before mutating state are modelled
as failure results that leave the state unchanged; they are marked in comments.
-/

/-! ## Conversation history model (`app.py`)

A history entry is one of the three turn shapes produced by the app:
a user turn `{"role": "user", "content": ...}`, a single-answer assistant turn
`{"role": "assistant", "persona": ..., "content": ..., "is_new": ...}`, or a
comparison turn `{"role": "assistant_all", "content": {label: answer}, ...}`.
-/

inductive Role where
  | user
  | assistant
deriving DecidableEq

structure Msg where
  role : Role
  content : String
deriving DecidableEq

inductive Turn where
  | user (content : String)
  | assistant (persona : String) (content : String) (isNew : Bool)
  | assistantAll (content : List (String × String)) (isNew : Bool)
deriving DecidableEq

/-- First loop of `clean_history` (`app.py` lines 599-604): keep user turns and
assistant turns tagged with the target persona; `assistant_all` turns and
assistant turns of other personas are dropped. -/
def filterTurns : List Turn → String → List Msg
  | [], _ => []
  | Turn.user c :: rest, p => ⟨Role.user, c⟩ :: filterTurns rest p
  | Turn.assistant pe c _ :: rest, p =>
      if pe = p then ⟨Role.assistant, c⟩ :: filterTurns rest p
      else filterTurns rest p
  | Turn.assistantAll _ _ :: rest, p => filterTurns rest p

/-- Second loop of `clean_history` (`app.py` lines 605-611): walk the filtered
messages with a `last_role` accumulator (initially `None`), appending a message
only when its role differs from `last_role`. -/
def collapse (lastRole : Option Role) : List Msg → List Msg
  | [] => []
  | m :: rest =>
      if some m.role = lastRole then collapse lastRole rest
      else m :: collapse (some m.role) rest

/-- `clean_history` (`app.py` lines 598-611). -/
def clean_history (history : List Turn) (persona : String) : List Msg :=
  collapse none (filterTurns history persona)

/-- `append_user_turn` (`app.py` lines 614-619): replace a trailing user entry
with the new user message, otherwise append it. -/
def append_user_turn : List Msg → String → List Msg
  | [], m => [⟨Role.user, m⟩]
  | [last], m =>
      if last.role = Role.user then [⟨Role.user, m⟩] else [last, ⟨Role.user, m⟩]
  | x :: y :: rest, m => x :: append_user_turn (y :: rest) m

/-- Modelled from the spec: the spec describes the collapsing step as keeping
exactly one entry per maximal run of consecutive same-role messages.  This
reference function keeps the FIRST entry of each run and drops the rest of the
run; it is compared with `clean_history` below. -/
def firstOfRuns : List Msg → List Msg
  | [] => []
  | m :: rest => m :: firstOfRuns (rest.dropWhile (fun x => x.role == m.role))
termination_by l => l.length
decreasing_by
  simp only [List.length_cons]
  exact Nat.lt_succ_of_le ((List.dropWhile_sublist _).length_le)

/-- The alternation property the LLM dispatch layer requires: no two
consecutive messages share a role. -/
def Alternating (l : List Msg) : Prop :=
  l.Chain' (fun a b => a.role ≠ b.role)

/-! ## Memory gateway client (`gateway_client.py`) -/

/-- The part of the fixed system prompt of `gateway_client.py` (lines 11-36)
that precedes the `\x7bcurrent_date\x7d` placeholder, verbatim. -/
def PROMPT_before_date : String :=
  "You are a helpful AI assistant. Use the provided context and profile information to answer the user\x27s question accurately and helpfully.\n\n<CURRENT_DATE>\n"

/-- The part of the fixed system prompt that follows the
`\x7bcurrent_date\x7d` placeholder, verbatim. -/
def PROMPT_after_date : String :=
  "\n</CURRENT_DATE>\n\nInstructions:\n- Use the PROFILE and CONTEXT data provided to answer the user\x27s question\n- Be conversational and helpful in your responses\n- If you don\x27t have enough information to answer completely, say so and suggest what additional information might be helpful\n- If the context contains relevant information, use it to provide a comprehensive answer\n- If no relevant context is available, let the user know and offer to help in other ways\n- Be concise but thorough in your responses\n- Use markdown formatting when appropriate to make your response clear and readable\n\nData Guidelines:\n- Don\x27t invent information that isn\x27t in the provided context\n- If information is missing or unclear, acknowledge this\n- Prioritize the most recent and relevant information when available\n- If there are conflicting pieces of information, mention this and explain the differences\n\nResponse Format:\n- Directly answer the user\x27s question, without showing your thought process\n- Provide supporting details from the context when available\n- Use bullet points or numbered lists when appropriate\n- End with any relevant follow-up questions or suggestions"

/-- The fixed system prompt `PROMPT` of `gateway_client.py` (lines 11-36):
the literal is split here into its part before the `\x7bcurrent_date\x7d`
placeholder, the placeholder itself, and the part after it; their
concatenation is exactly the source literal.  The placeholder is part of the
string: the source never calls `PROMPT.format`, so it is never substituted. -/
def PROMPT : String :=
  PROMPT_before_date ++ "\x7bcurrent_date\x7d" ++ PROMPT_after_date

/-- Modelled from the spec: the spec says the system prompt "is interpolated
with the current date at call time" (i.e. `PROMPT.format(current_date=...)`,
which replaces the `\x7bcurrent_date\x7d` placeholder with the date).  The
source contains no such interpolation; this definition expresses what the spec
describes, for comparison with the source's return value. -/
def PROMPT_dated (date : String) : String :=
  PROMPT_before_date ++ date ++ PROMPT_after_date

/-- Return value of `ingest_and_rewrite` (`gateway_client.py` lines 38-67).
The two HTTP calls are abstracted by the body `respText` of the search
response (`resp.text`); on a raised exception or non-success search status the
source propagates the exception instead of returning, so this models the
successful return.  The source returns `PROMPT` itself: `PROMPT.format` is
never called and the imported `datetime` is never used. -/
def ingest_and_rewrite (query : String) (respText : String) : String :=
  PROMPT ++ "\n\n" ++ respText ++ "\n\n" ++ "User Query: " ++ query

/-- Modelled from the spec: the rewritten string the spec claims
`ingest_and_rewrite` produces - the date-interpolated prompt, a blank line,
the search response body, a blank line, and "User Query: " plus the query. -/
def rewrittenSpec (date : String) (query : String) (respText : String) : String :=
  PROMPT_dated date ++ "\n\n" ++ respText ++ "\n\n" ++ "User Query: " ++ query

/-- An HTTP response as far as the client observes it. -/
structure Response where
  status : Nat
  body : String
deriving DecidableEq

/-- `delete_profile` (`gateway_client.py` lines 136-150).  The single
`requests.delete` call is abstracted by its outcome `net`: `Except.error e`
models a raised `requests` exception, `Except.ok r` a returned response.  The
source wraps the call in no try/except, so a raised exception propagates to
the caller; when the call returns, the function returns `True` without ever
inspecting the response status. -/
def delete_profile (net : Except String Response) : Except String Bool :=
  match net with
  | Except.error e => Except.error e
  | Except.ok _ => Except.ok true

/-! ## Message rewriting (`app.py`) -/

/-- Rationale suffix appended on the no-memory/Control path
(`app.py` line 125), verbatim. -/
def NO_PERSONALIZATION_SUFFIX : String :=
  " At the beginning of your response, please say the following in ITALIC: \x27Persona Rationale: No personalization applied.\x27. Begin your answer on the next line."

/-- Rationale suffix appended on the memory path (`app.py` line 133),
verbatim. -/
def PERSONA_RATIONALE_SUFFIX : String :=
  " At the beginning of your response, please say the following in ITALIC: \x27Persona Rationale: \x27 followed by 1 sentence about how your reasoning for how the persona traits influenced this response, also in italics. Begin your answer on the next line."

/-- Python's `str.lower()` (used as `persona_name.lower()` on `app.py`
line 122), modelled as a character-wise lowercase map over the string's
characters. -/
def lower (s : String) : String :=
  String.mk (s.data.map Char.toLower)

/-- `rewrite_message` (`app.py` lines 118-138).  The gateway call
`ingest_and_rewrite(user_id=persona_name, query=msg)` is abstracted by the
parameter `gateway`; on the no-memory/Control branch the result is
independent of `gateway`, which models that the memory service is never
contacted there.  (The source's except-branch re-raises, so the gateway's
exceptions propagate; only returning runs are modelled.) -/
def rewrite_message (gateway : String → String → String) (msg : String)
    (persona_name : String) (show_rationale : Bool) (use_memory : Bool) : String :=
  if !use_memory || lower persona_name == "control" then
    if show_rationale then msg ++ NO_PERSONALIZATION_SUFFIX else msg
  else
    let rewritten_msg := gateway persona_name msg
    if show_rationale then rewritten_msg ++ PERSONA_RATIONALE_SUFFIX else rewritten_msg

/-- Persona argument passed to the completion call on the single-answer path
(`app.py` line 772): `"Arnold" if persona_name == "Control" or not
memmachine_enabled else persona_name`. -/
def chat_persona_single (persona_name : String) (memmachine_enabled : Bool) : String :=
  if persona_name == "Control" || !memmachine_enabled then "Arnold" else persona_name

/-! ## Session registry and UI session state (`app.py`)

`st.session_state` is modelled as a record.  The session registry
`st.session_state.sessions` is a Python dict; it is modelled as an
association list with dict semantics: lookup and deletion act on the first
(unique) matching key, assignment updates an existing key in place and
appends a missing key at the end.  The `st.session_state.history` field of
the source is an alias of the active session's history list, maintained
redundantly by every operation; no claim reads it, so it is not modelled. -/

structure Session where
  history : List Turn
deriving DecidableEq

/-- Python dict lookup `d[k]` / membership `k in d`, as an `Option`. -/
def dictGet : List (String × Session) → String → Option Session
  | [], _ => none
  | (k', v) :: rest, k => if k' = k then some v else dictGet rest k

/-- Python dict assignment `d[k] = v`: update the existing entry in place,
or append a new entry at the end. -/
def dictSet : List (String × Session) → String → Session → List (String × Session)
  | [], k, v => [(k, v)]
  | (k', v') :: rest, k, v =>
      if k' = k then (k, v) :: rest else (k', v') :: dictSet rest k v

/-- Python dict removal `d.pop(k)` / `d.pop(k, None)` (the removal effect). -/
def dictPop : List (String × Session) → String → List (String × Session)
  | [], _ => []
  | (k', v') :: rest, k =>
      if k' = k then rest else (k', v') :: dictPop rest k

/-- Python `d.setdefault(k, v)`: insert only when the key is absent. -/
def dictSetdefault (d : List (String × Session)) (k : String) (v : Session) :
    List (String × Session) :=
  if (dictGet d k).isSome then d else d ++ [(k, v)]

/-- Python `order[order.index(a)] = b`: replace the first occurrence of `a`.
(When `a` is absent the source raises `ValueError`; that point is unreachable
from the states the claims quantify over, and the model leaves the list
unchanged there.) -/
def replaceFirst : List String → String → String → List String
  | [], _, _ => []
  | x :: xs, a, b => if x = a then b :: xs else x :: replaceFirst xs a b

/-- The candidate loop of `_generate_session_name` (`app.py` lines 16-23),
with the unbounded `while` loop bounded by fuel.  `existing.length + 1`
candidates always suffice (at most `existing.length` of the distinct strings
`"Session 1"`, `"Session 2"`, ... can collide), so the fuel-exhausted branch
is unreachable and the model is exact. -/
def genFrom (existing : List String) : Nat → Nat → String
  | 0, idx => "Session " ++ toString idx
  | fuel + 1, idx =>
      let candidate := "Session " ++ toString idx
      if candidate ∈ existing then genFrom existing fuel (idx + 1) else candidate

/-- `_generate_session_name` (`app.py` lines 16-23): lowest-index unused
`"Session N"` name, with `existing = set(session_order)`. -/
def _generate_session_name (order : List String) : String :=
  genFrom order (order.length + 1) 1

/-- Python's `str.strip()` (leading and trailing whitespace removal, used on
session-name inputs), modelled on the string's character list. -/
def strip (s : String) : String :=
  String.mk (((s.data.dropWhile Char.isWhitespace).reverse.dropWhile
    Char.isWhitespace).reverse)

/-- The UI session state fields the session-management claims are about. -/
structure UIState where
  sessions : List (String × Session)
  session_order : List String
  active_session_id : String
  session_select : String
  rename_session_name : String
  rename_session_synced_to : String
deriving DecidableEq

/-- Keys of the session registry. -/
def sessionKeys (st : UIState) : List String :=
  st.sessions.map Prod.fst

/-- `ensure_session_state` (`app.py` lines 25-54) on an initialized state
(all `st.session_state` fields present; the from-scratch run is
`initialState` below).  The `not in st.session_state` guards are then false,
and the two `setdefault` calls on the rename fields are no-ops. -/
def ensure_session_state (st : UIState) : UIState :=
  let st1 :=
    if (dictGet st.sessions st.active_session_id).isSome then st
    else
      let default_name := _generate_session_name st.session_order
      { st with
        sessions := dictSetdefault st.sessions default_name ⟨[]⟩,
        session_order :=
          if default_name ∈ st.session_order then st.session_order
          else st.session_order ++ [default_name],
        active_session_id := default_name }
  if (dictGet st1.sessions st1.session_select).isSome then st1
  else { st1 with session_select := st1.active_session_id }

/-- The state `ensure_session_state` builds on a fresh browser session, where
every `st.session_state` field is absent: an empty registry and order list
receive the default session `"Session 1"`, which becomes active, selected,
and the rename-field sync target. -/
def initialState : UIState :=
  { sessions := [("Session 1", ⟨[]⟩)],
    session_order := ["Session 1"],
    active_session_id := "Session 1",
    session_select := "Session 1",
    rename_session_name := "Session 1",
    rename_session_synced_to := "Session 1" }

/-- `create_session` (`app.py` lines 57-73).  Returns the created flag, the
candidate name, and the resulting state. -/
def create_session (st0 : UIState) (session_name : Option String) :
    Bool × String × UIState :=
  let st := ensure_session_state st0
  let trimmed := strip (session_name.getD "")
  let candidate :=
    if trimmed = "" then _generate_session_name st.session_order else trimmed
  if (dictGet st.sessions candidate).isSome then
    (false, candidate, st)
  else
    (true, candidate,
      { st with
        sessions := dictSet st.sessions candidate ⟨[]⟩,
        session_order := st.session_order ++ [candidate],
        active_session_id := candidate,
        session_select := candidate,
        rename_session_name := candidate,
        rename_session_synced_to := candidate })

/-- `rename_session` (`app.py` lines 76-95).  When `current_name` is not a
registered session the source raises `KeyError` from
`sessions.pop(current_name)` before any field is mutated; the model returns
failure with the state unchanged at that (claims-unreachable) point. -/
def rename_session (st0 : UIState) (current_name : String) (new_name : String) :
    Bool × UIState :=
  let st := ensure_session_state st0
  let target := strip new_name
  if target = "" ∨ target = current_name then (false, st)
  else if (dictGet st.sessions target).isSome then (false, st)
  else
    match dictGet st.sessions current_name with
    | none => (false, st)
    | some sess =>
      let sessions := dictSet (dictPop st.sessions current_name) target sess
      let order := replaceFirst st.session_order current_name target
      if st.active_session_id = current_name then
        (true, { st with
          sessions := sessions,
          session_order := order,
          active_session_id := target,
          session_select := target,
          rename_session_name := target,
          rename_session_synced_to := target })
      else
        (true, { st with
          sessions := sessions,
          session_order := order,
          rename_session_name := target,
          rename_session_synced_to := target })

/-- `delete_session` (`app.py` lines 98-115).  `order[-1]` is modelled with
`getLastD`; in the success branch the order list is provably non-empty, so
the default is never used. -/
def delete_session (st0 : UIState) (session_name : String) : Bool × UIState :=
  let st := ensure_session_state st0
  if (dictGet st.sessions session_name).isNone then (false, st)
  else if st.session_order.length ≤ 1 then (false, st)
  else
    let sessions := dictPop st.sessions session_name
    let order := st.session_order.erase session_name
    if st.active_session_id = session_name then
      let newActive := order.getLastD ""
      (true, { st with
        sessions := sessions,
        session_order := order,
        active_session_id := newActive,
        session_select := newActive,
        rename_session_name := newActive,
        rename_session_synced_to := newActive })
    else
      (true, { st with sessions := sessions, session_order := order })

/-- The session-switch button handler (`app.py` lines 261-276): the sidebar
renders one button per name in `session_order`, so the handler only ever runs
for a member of the order list; pressing the active session's button is a
no-op. -/
def switch_session (st : UIState) (session_name : String) : UIState :=
  if session_name ∈ st.session_order ∧ session_name ≠ st.active_session_id then
    { st with
      active_session_id := session_name,
      session_select := session_name,
      rename_session_name := session_name,
      rename_session_synced_to := session_name }
  else st

/-- The session-management operations reachable from the sidebar. -/
inductive Op where
  | create (name : Option String)
  | rename (current_name new_name : String)
  | delete (name : String)
  | switch (name : String)
deriving DecidableEq

/-- Whether an operation is a create or a rename. -/
def Op.isCreateRename : Op → Bool
  | Op.create _ => true
  | Op.rename _ _ => true
  | Op.delete _ => false
  | Op.switch _ => false

/-- One sidebar operation applied to the state.  The delete button handler
(`app.py` lines 316-320) additionally re-syncs `session_select` and the
rename fields to the (possibly new) active session after a successful
deletion. -/
def applyOp (st : UIState) : Op → UIState
  | Op.create n => (create_session st n).2.2
  | Op.rename c n => (rename_session st c n).2
  | Op.delete n =>
      let r := delete_session st n
      if r.1 then
        { r.2 with
          session_select := r.2.active_session_id,
          rename_session_name := r.2.active_session_id,
          rename_session_synced_to := r.2.active_session_id }
      else r.2
  | Op.switch n => switch_session st n

/-- A sequence of sidebar operations. -/
def runOps (st : UIState) (ops : List Op) : UIState :=
  ops.foldl applyOp st

/-- The representation invariant of the UI session state: the registry has no
duplicate keys (automatic for a Python dict), the order list has no
duplicates, registry keys and order names are the same set, the active
session is registered, and the select field tracks the active session. -/
def StateInv (st : UIState) : Prop :=
  (sessionKeys st).Nodup ∧
  st.session_order.Nodup ∧
  (∀ k ∈ sessionKeys st, k ∈ st.session_order) ∧
  (∀ k ∈ st.session_order, k ∈ sessionKeys st) ∧
  st.active_session_id ∈ sessionKeys st ∧
  st.session_select = st.active_session_id

instance (st : UIState) : Decidable (StateInv st) := by
  unfold StateInv
  infer_instance

/-- A concrete valid UI session state with two registered sessions, used to
witness the session-management theorems on explicit inputs. -/
def twoSessions : UIState :=
  { sessions := [("A", ⟨[]⟩), ("B", ⟨[]⟩)],
    session_order := ["A", "B"],
    active_session_id := "A",
    session_select := "A",
    rename_session_name := "A",
    rename_session_synced_to := "A" }

/-! ## Theorems: history cleaning (claims C2, C3) -/

theorem collapse_chain (l : List Msg) : ∀ ro : Option Role,
    Alternating (collapse ro l) ∧
    ∀ m : Msg, (collapse ro l).head? = some m → some m.role ≠ ro := by
  induction l with
  | nil =>
      intro ro
      constructor
      · simp [collapse, Alternating]
      · simp [collapse]
  | cons x t ih =>
      intro ro
      by_cases hx : some x.role = ro
      · simpa [collapse, hx] using ih ro
      · have iht := ih (some x.role)
        constructor
        · simp only [collapse, if_neg hx]
          rw [Alternating, List.chain'_cons']
          refine ⟨?_, iht.1⟩
          intro b hb
          have := iht.2 b (by simpa using hb)
          simp only [ne_eq, Option.some.injEq] at this
          exact fun hcontra => this hcontra.symm
        · intro m hm
          simp only [collapse, if_neg hx, List.head?_cons, Option.some.injEq] at hm
          subst hm
          exact hx

theorem collapse_none_head (l : List Msg) :
    (collapse none l).head? = l.head? := by
  cases l with
  | nil => rfl
  | cons x t => simp [collapse]

theorem append_user_turn_head (y : Msg) (rest : List Msg) (m : String) :
    (append_user_turn (y :: rest) m).head?.map Msg.role = some y.role := by
  cases rest with
  | nil =>
      by_cases hy : y.role = Role.user
      · simp [append_user_turn, hy]
      · simp [append_user_turn, hy]
  | cons z t => simp [append_user_turn]

theorem append_user_turn_alternating (l : List Msg) (m : String)
    (h : Alternating l) : Alternating (append_user_turn l m) := by
  induction l with
  | nil => simp [append_user_turn, Alternating]
  | cons x t ih =>
      cases t with
      | nil =>
          by_cases hx : x.role = Role.user
          · simp [append_user_turn, hx, Alternating]
          · simp only [append_user_turn, if_neg hx, Alternating]
            exact List.chain'_pair.mpr hx
      | cons y rest =>
          rw [Alternating, List.chain'_cons'] at h
          have ht := ih h.2
          simp only [append_user_turn]
          rw [Alternating, List.chain'_cons']
          refine ⟨?_, ht⟩
          intro b hb
          have hhead := append_user_turn_head y rest m
          rw [hb] at hhead
          simp only [Option.map_some', Option.some.injEq] at hhead
          have := h.1 y (by simp)
          rw [hhead]
          exact this

/-- C3 (amended): for every history and persona, the cleaned message sequence
has no two consecutive entries with the same role, its first entry is the
first entry of the persona-filtered history (so it has role user exactly when
the filtered history starts with a user turn - not unconditionally), and
alternation is preserved when the rewritten user message is replaced/appended
by `append_user_turn`. -/
theorem clean_history_alternating (history : List Turn) (persona : String)
    (new_msg : String) :
    Alternating (clean_history history persona) ∧
    (clean_history history persona).head? = (filterTurns history persona).head? ∧
    Alternating (append_user_turn (clean_history history persona) new_msg) := by
  refine ⟨(collapse_chain _ none).1, collapse_none_head _, ?_⟩
  exact append_user_turn_alternating _ _ (collapse_chain _ none).1

/-- C3 (counterexample): for the history consisting of a single assistant turn
of the target persona, the cleaned sequence is non-empty and its first entry
has role assistant, not user - refuting the claim that a non-empty cleaned
sequence always starts with a user entry. -/
theorem clean_history_head_not_user_counterexample :
    clean_history [Turn.assistant "P" "x" false] "P" ≠ [] ∧
    (clean_history [Turn.assistant "P" "x" false] "P").head?.map Msg.role ≠
      some Role.user := by
  constructor
  · decide
  · decide

theorem collapse_some_eq_firstOfRuns (l : List Msg) : ∀ r : Role,
    collapse (some r) l = firstOfRuns (l.dropWhile (fun x => x.role == r)) := by
  induction l with
  | nil => intro r; simp [collapse, firstOfRuns]
  | cons x t ih =>
      intro r
      by_cases hx : x.role = r
      · simp only [collapse, List.dropWhile_cons, hx]
        simpa using ih r
      · have hxb : (x.role == r) = false := by simpa using hx
        have hxs : ¬(some x.role = some r) := by simpa using hx
        simp only [collapse, List.dropWhile_cons, hxb, if_neg hxs,
          Bool.false_eq_true, if_false]
        rw [firstOfRuns, ih x.role]

/-- C2 (amended): `clean_history` collapses each run of consecutive same-role
entries of the persona-filtered history by keeping only the FIRST (earliest)
entry of that run - not the most recent one. -/
theorem clean_history_keeps_first_of_run (history : List Turn) (persona : String) :
    clean_history history persona = firstOfRuns (filterTurns history persona) := by
  rw [clean_history]
  cases hf : filterTurns history persona with
  | nil => simp [collapse, firstOfRuns]
  | cons m t =>
      rw [firstOfRuns]
      simp only [collapse, reduceCtorEq, if_false]
      rw [collapse_some_eq_firstOfRuns]

/-- C2 (counterexample): for a history of two consecutive user turns, the
collapsing step keeps the first entry `"a"`, not the most recent entry `"b"`
as the claim states. -/
theorem clean_history_most_recent_counterexample :
    clean_history [Turn.user "a", Turn.user "b"] "P" = [⟨Role.user, "a"⟩] ∧
    clean_history [Turn.user "a", Turn.user "b"] "P" ≠ [⟨Role.user, "b"⟩] := by
  constructor
  · decide
  · decide

/-! ## Theorems: gateway composition and rewrite routing (claims C1, C4, C8, C10) -/

/-- C1: the string returned by `ingest_and_rewrite` is NOT the fixed system
prompt with the current date substituted (followed by a blank line, the
search response body, a blank line, and "User Query: " + query): the source
never interpolates the prompt, so the returned string differs from the
spec-described one for every date whose length is not exactly that of the
un-substituted 14-character `\x7bcurrent_date\x7d` placeholder - in
particular for every real date string. -/
theorem ingest_and_rewrite_date_not_substituted (date query respText : String)
    (hd : date.length ≠ 14) :
    ingest_and_rewrite query respText ≠ rewrittenSpec date query respText := by
  intro h
  have hlen := congrArg String.length h
  have h14 : ("\x7bcurrent_date\x7d" : String).length = 14 := by decide
  simp only [ingest_and_rewrite, rewrittenSpec, PROMPT, PROMPT_dated,
    String.length_append, h14] at hlen
  omega

theorem ingest_and_rewrite_date_witness :
    ("2025-06-01" : String).length ≠ 14 ∧
    ingest_and_rewrite "hi" "ctx" ≠ rewrittenSpec "2025-06-01" "hi" "ctx" :=
  ⟨by decide, ingest_and_rewrite_date_not_substituted "2025-06-01" "hi" "ctx" (by decide)⟩

/-- C4: when the persona is `"Control"` (first two conjuncts) or memory is
disabled (last two conjuncts), `rewrite_message` is independent of the memory
gateway - the gateway is never invoked - and returns the original message,
with the fixed no-personalization rationale suffix appended verbatim exactly
when the show-rationale toggle is on. -/
theorem rewrite_message_control_exclusion
    (gateway gateway2 : String → String → String) (msg persona : String)
    (show_rationale use_memory : Bool) :
    rewrite_message gateway msg "Control" show_rationale use_memory =
      rewrite_message gateway2 msg "Control" show_rationale use_memory ∧
    rewrite_message gateway msg "Control" show_rationale use_memory =
      (if show_rationale then msg ++ NO_PERSONALIZATION_SUFFIX else msg) ∧
    rewrite_message gateway msg persona show_rationale false =
      rewrite_message gateway2 msg persona show_rationale false ∧
    rewrite_message gateway msg persona show_rationale false =
      (if show_rationale then msg ++ NO_PERSONALIZATION_SUFFIX else msg) := by
  have hc : (lower "Control" == "control") = true := by decide
  refine ⟨?_, ?_, ?_, ?_⟩ <;> simp [rewrite_message, hc]

/-- C8 (counterexample): a network failure raised inside `delete_profile`
propagates to the caller as an exception; it does not degrade to a returned
failure result. -/
theorem delete_profile_propagates_counterexample :
    delete_profile (Except.error "connection refused") =
      Except.error "connection refused" ∧
    delete_profile (Except.error "connection refused") ≠ Except.ok false ∧
    delete_profile (Except.error "connection refused") ≠ Except.ok true := by
  refine ⟨rfl, ?_, ?_⟩ <;> intro h <;> exact Except.noConfusion h

/-- C8 (amended): whenever the delete request returns - with any status -
`delete_profile` reports success without inspecting the response; but when
the request raises, the exception propagates unchanged to the caller (the
function has no try/except, unlike `get_memories` and `ingest_memories`). -/
theorem delete_profile_reports_success (r : Response) (e : String) :
    delete_profile (Except.ok r) = Except.ok true ∧
    delete_profile (Except.error e) = Except.error e :=
  ⟨rfl, rfl⟩

/-- C10: the Control test of `rewrite_message` is case-insensitive while the
completion-persona substitution is case-sensitive: for a persona `p` that
lowercases to "control" without being exactly "Control" (e.g. "control"),
with memory enabled on the single-answer path, the memory gateway is never
invoked and the message passes through raw (modulo the rationale suffix), yet
the completion call receives persona `p` itself rather than "Arnold". -/
theorem control_persona_case_sensitivity (p : String)
    (hlow : lower p = "control") (hne : p ≠ "Control")
    (gateway gateway2 : String → String → String) (msg : String)
    (show_rationale : Bool) :
    rewrite_message gateway msg p show_rationale true =
      rewrite_message gateway2 msg p show_rationale true ∧
    rewrite_message gateway msg p show_rationale true =
      (if show_rationale then msg ++ NO_PERSONALIZATION_SUFFIX else msg) ∧
    chat_persona_single p true = p := by
  have hb : (lower p == "control") = true := by simp [hlow]
  have hb2 : (p == "Control") = false := by simp [hne]
  refine ⟨?_, ?_, ?_⟩ <;> simp [rewrite_message, chat_persona_single, hb, hb2]

theorem control_persona_case_sensitivity_witness :
    lower "control" = "control" ∧ ("control" : String) ≠ "Control" ∧
    (rewrite_message (fun _ q => q) "m" "control" true true =
        rewrite_message (fun _ _ => "") "m" "control" true true ∧
      rewrite_message (fun _ q => q) "m" "control" true true =
        (if true then "m" ++ NO_PERSONALIZATION_SUFFIX else "m") ∧
      chat_persona_single "control" true = "control") :=
  ⟨by decide, by decide,
    control_persona_case_sensitivity "control" (by decide) (by decide)
      (fun _ q => q) (fun _ _ => "") "m" true⟩

/-! ## Theorems: dictionary and order-list helpers -/

theorem dictGet_isSome_iff (d : List (String × Session)) (k : String) :
    (dictGet d k).isSome ↔ k ∈ d.map Prod.fst := by
  induction d with
  | nil => simp [dictGet]
  | cons p rest ih =>
      obtain ⟨k', v⟩ := p
      by_cases h : k' = k
      · simp [dictGet, h]
      · simp [dictGet, h, ih, Ne.symm h]

theorem dictGet_eq_none_iff (d : List (String × Session)) (k : String) :
    dictGet d k = none ↔ k ∉ d.map Prod.fst := by
  rw [← dictGet_isSome_iff, Option.not_isSome_iff_eq_none]

theorem keys_dictSet_mem (d : List (String × Session)) (k : String) (v : Session)
    (h : k ∈ d.map Prod.fst) :
    (dictSet d k v).map Prod.fst = d.map Prod.fst := by
  induction d with
  | nil => simp at h
  | cons p rest ih =>
      obtain ⟨k', v'⟩ := p
      by_cases hk : k' = k
      · simp [dictSet, hk]
      · simp only [List.map_cons, List.mem_cons] at h
        have hmem : k ∈ rest.map Prod.fst := by
          rcases h with h1 | h1
          · exact absurd h1.symm hk
          · exact h1
        simp [dictSet, hk, ih hmem]

theorem keys_dictSet_not_mem (d : List (String × Session)) (k : String) (v : Session)
    (h : k ∉ d.map Prod.fst) :
    (dictSet d k v).map Prod.fst = d.map Prod.fst ++ [k] := by
  induction d with
  | nil => simp [dictSet]
  | cons p rest ih =>
      obtain ⟨k', v'⟩ := p
      simp only [List.map_cons, List.mem_cons, not_or] at h
      have hk : k' ≠ k := fun hc => h.1 hc.symm
      simp [dictSet, hk, ih h.2]

theorem keys_dictPop (d : List (String × Session)) (k : String) :
    (dictPop d k).map Prod.fst = (d.map Prod.fst).erase k := by
  induction d with
  | nil => simp [dictPop]
  | cons p rest ih =>
      obtain ⟨k', v'⟩ := p
      by_cases hk : k' = k
      · simp [dictPop, hk, List.erase_cons_head]
      · simp [dictPop, hk, List.erase_cons_tail, ih]

theorem dictGet_dictSet_self (d : List (String × Session)) (k : String) (v : Session) :
    dictGet (dictSet d k v) k = some v := by
  induction d with
  | nil => simp [dictSet, dictGet]
  | cons p rest ih =>
      obtain ⟨k', v'⟩ := p
      by_cases hk : k' = k
      · simp [dictSet, dictGet, hk]
      · simp [dictSet, dictGet, hk, ih]

theorem dictGet_dictSet_ne (d : List (String × Session)) (k : String) (v : Session)
    (k2 : String) (h : k2 ≠ k) :
    dictGet (dictSet d k v) k2 = dictGet d k2 := by
  induction d with
  | nil => simp [dictSet, dictGet, Ne.symm h]
  | cons p rest ih =>
      obtain ⟨k', v'⟩ := p
      by_cases hk : k' = k
      · subst hk
        simp [dictSet, dictGet, Ne.symm h]
      · simp only [dictSet, if_neg hk]
        by_cases hk2 : k' = k2
        · simp [dictGet, hk2]
        · simp [dictGet, hk2, ih]

theorem dictGet_dictPop_ne (d : List (String × Session)) (k : String)
    (k2 : String) (h : k2 ≠ k) :
    dictGet (dictPop d k) k2 = dictGet d k2 := by
  induction d with
  | nil => simp [dictPop]
  | cons p rest ih =>
      obtain ⟨k', v'⟩ := p
      by_cases hk : k' = k
      · subst hk
        simp [dictPop, dictGet, Ne.symm h]
      · by_cases hk2 : k' = k2
        · subst hk2
          simp [dictPop, dictGet, hk]
        · simp [dictPop, dictGet, hk, hk2, ih]

theorem dictPop_dictSet (d : List (String × Session)) (k : String) (v : Session)
    (h : k ∉ d.map Prod.fst) :
    dictPop (dictSet d k v) k = d := by
  induction d with
  | nil => simp [dictSet, dictPop]
  | cons p rest ih =>
      obtain ⟨k', v'⟩ := p
      simp only [List.map_cons, List.mem_cons, not_or] at h
      have hk : k' ≠ k := fun hc => h.1 hc.symm
      simp [dictSet, dictPop, hk, ih h.2]

theorem replaceFirst_of_not_mem (l : List String) (a b : String) (h : a ∉ l) :
    replaceFirst l a b = l := by
  induction l with
  | nil => rfl
  | cons x xs ih =>
      simp only [List.mem_cons, not_or] at h
      simp [replaceFirst, Ne.symm h.1, ih h.2]

theorem mem_of_mem_replaceFirst (l : List String) (a b x : String)
    (h : x ∈ replaceFirst l a b) : x ∈ l ∨ x = b := by
  induction l with
  | nil => simp [replaceFirst] at h
  | cons y ys ih =>
      by_cases hy : y = a
      · simp only [replaceFirst, if_pos hy, List.mem_cons] at h
        rcases h with h | h
        · exact Or.inr h
        · exact Or.inl (List.mem_cons_of_mem _ h)
      · simp only [replaceFirst, if_neg hy, List.mem_cons] at h
        rcases h with h | h
        · exact Or.inl (by simp [h])
        · rcases ih h with h2 | h2
          · exact Or.inl (List.mem_cons_of_mem _ h2)
          · exact Or.inr h2

theorem mem_replaceFirst_iff (l : List String) (a b x : String)
    (hnd : l.Nodup) (ha : a ∈ l) (hb : b ∉ l) :
    x ∈ replaceFirst l a b ↔ (x ∈ l ∧ x ≠ a) ∨ x = b := by
  induction l with
  | nil => simp at ha
  | cons y ys ih =>
      rw [List.nodup_cons] at hnd
      simp only [List.mem_cons, not_or] at hb
      by_cases hy : y = a
      · subst hy
        have hrw : replaceFirst (y :: ys) y b = b :: ys := by
          simp [replaceFirst]
        rw [hrw]
        simp only [List.mem_cons]
        constructor
        · rintro (h | h)
          · exact Or.inr h
          · refine Or.inl ⟨Or.inr h, ?_⟩
            intro hxy
            exact hnd.1 (hxy ▸ h)
        · rintro (⟨hmem, hne⟩ | h)
          · rcases hmem with h | h
            · exact absurd h hne
            · exact Or.inr h
          · exact Or.inl h
      · have ha2 : a ∈ ys := by
          rw [List.mem_cons] at ha
          rcases ha with h | h
          · exact absurd h.symm hy
          · exact h
        simp only [replaceFirst, if_neg hy, List.mem_cons]
        rw [ih hnd.2 ha2 hb.2]
        constructor
        · rintro (h | ⟨hmem, hne⟩ | h)
          · exact Or.inl ⟨Or.inl h, h ▸ hy⟩
          · exact Or.inl ⟨Or.inr hmem, hne⟩
          · exact Or.inr h
        · rintro (⟨hmem, hne⟩ | h)
          · rcases hmem with h | h
            · exact Or.inl h
            · exact Or.inr (Or.inl ⟨h, hne⟩)
          · exact Or.inr (Or.inr h)

theorem nodup_replaceFirst (l : List String) (a b : String)
    (hnd : l.Nodup) (hb : b ∉ l) : (replaceFirst l a b).Nodup := by
  induction l with
  | nil => simp [replaceFirst]
  | cons y ys ih =>
      rw [List.nodup_cons] at hnd
      simp only [List.mem_cons, not_or] at hb
      by_cases hy : y = a
      · simp only [replaceFirst, if_pos hy, List.nodup_cons]
        exact ⟨hb.2, hnd.2⟩
      · simp only [replaceFirst, if_neg hy, List.nodup_cons]
        refine ⟨?_, ih hnd.2 hb.2⟩
        intro hmem
        rcases mem_of_mem_replaceFirst _ _ _ _ hmem with h | h
        · exact hnd.1 h
        · exact hb.1 h.symm

theorem replaceFirst_replaceFirst (l : List String) (a b : String) (hb : b ∉ l) :
    replaceFirst (replaceFirst l a b) b a = l := by
  induction l with
  | nil => rfl
  | cons y ys ih =>
      simp only [List.mem_cons, not_or] at hb
      have hyb : y ≠ b := fun hc => hb.1 hc.symm
      by_cases hy : y = a
      · simp [replaceFirst, hy, replaceFirst_of_not_mem ys b a hb.2]
      · simp [replaceFirst, hy, hyb, ih hb.2]

theorem getLastD_mem (l : List String) (h : l ≠ []) :
    ∀ d : String, l.getLastD d ∈ l := by
  induction l with
  | nil => exact absurd rfl h
  | cons y ys ih =>
      intro d
      cases hys : ys with
      | nil => simp [List.getLastD]
      | cons z t =>
          subst hys
          rw [List.getLastD_cons]
          exact List.mem_cons_of_mem _ (ih (by simp) y)

theorem getLast?_of_ne_nil (l : List String) (h : l ≠ []) :
    ∀ d : String, l.getLast? = some (l.getLastD d) := by
  induction l with
  | nil => exact absurd rfl h
  | cons y ys ih =>
      intro d
      cases hys : ys with
      | nil => simp [List.getLastD]
      | cons z t =>
          subst hys
          rw [List.getLastD_cons, List.getLast?_cons_cons]
          exact ih (by simp) y

/-! ## Theorems: session-state invariant preservation (claims C5, C6, C7, C9) -/

theorem ensure_of_inv (st : UIState) (h : StateInv st) :
    ensure_session_state st = st := by
  obtain ⟨hk, ho, hko, hok, hact, hsel⟩ := h
  have h1 : (dictGet st.sessions st.active_session_id).isSome :=
    (dictGet_isSome_iff _ _).mpr hact
  have h2 : (dictGet st.sessions st.session_select).isSome := by
    rw [hsel]
    exact h1
  simp [ensure_session_state, h1, h2]

theorem stateInv_create (st : UIState) (h : StateInv st) (name : Option String) :
    StateInv (create_session st name).2.2 := by
  have hens := ensure_of_inv st h
  obtain ⟨hk, ho, hko, hok, hact, hsel⟩ := h
  simp only [create_session, hens]
  set c := if strip (name.getD "") = "" then _generate_session_name st.session_order
    else strip (name.getD "") with hc
  by_cases hmem : (dictGet st.sessions c).isSome
  · simp only [hmem, if_true]
    exact ⟨hk, ho, hko, hok, hact, hsel⟩
  · have hcnot : c ∉ sessionKeys st := fun hin =>
      hmem ((dictGet_isSome_iff _ _).mpr hin)
    have hcnoto : c ∉ st.session_order := fun hin => hcnot (hok c hin)
    simp only [hmem, Bool.false_eq_true, if_false]
    have hdisj : (sessionKeys st).Disjoint [c] := by
      intro a ha hb
      rw [List.mem_singleton] at hb
      subst hb
      exact hcnot ha
    have hdisjo : st.session_order.Disjoint [c] := by
      intro a ha hb
      rw [List.mem_singleton] at hb
      subst hb
      exact hcnoto ha
    refine ⟨?_, ?_, ?_, ?_, ?_, rfl⟩
    · show ((dictSet st.sessions c ⟨[]⟩).map Prod.fst).Nodup
      rw [keys_dictSet_not_mem _ _ _ hcnot]
      exact List.Nodup.append hk (List.nodup_singleton c) hdisj
    · show (st.session_order ++ [c]).Nodup
      exact List.Nodup.append ho (List.nodup_singleton c) hdisjo
    · intro k hkmem
      show k ∈ st.session_order ++ [c]
      replace hkmem : k ∈ (dictSet st.sessions c ⟨[]⟩).map Prod.fst := hkmem
      rw [keys_dictSet_not_mem _ _ _ hcnot] at hkmem
      rw [List.mem_append] at hkmem ⊢
      rcases hkmem with h1 | h1
      · exact Or.inl (hko k h1)
      · exact Or.inr h1
    · intro k hkmem
      show k ∈ (dictSet st.sessions c ⟨[]⟩).map Prod.fst
      replace hkmem : k ∈ st.session_order ++ [c] := hkmem
      rw [keys_dictSet_not_mem _ _ _ hcnot]
      rw [List.mem_append] at hkmem ⊢
      rcases hkmem with h1 | h1
      · exact Or.inl (hok k h1)
      · exact Or.inr h1
    · show c ∈ (dictSet st.sessions c ⟨[]⟩).map Prod.fst
      rw [keys_dictSet_not_mem _ _ _ hcnot]
      simp

theorem create_session_reject (st : UIState) (h : StateInv st) (name : Option String) :
    ((create_session st name).2.1 ∈ sessionKeys st → (create_session st name).1 = false) ∧
    ((create_session st name).1 = false → (create_session st name).2.2 = st) := by
  have hens := ensure_of_inv st h
  simp only [create_session, hens]
  set c := if strip (name.getD "") = "" then _generate_session_name st.session_order
    else strip (name.getD "") with hc
  by_cases hmem : (dictGet st.sessions c).isSome
  · simp [hmem]
  · simp only [hmem, Bool.false_eq_true, if_false]
    constructor
    · intro hin
      exact absurd ((dictGet_isSome_iff _ _).mpr hin) hmem
    · intro hfalse
      simp at hfalse

theorem stateInv_rename (st : UIState) (h : StateInv st)
    (cur new_name : String) : StateInv (rename_session st cur new_name).2 := by
  have hens := ensure_of_inv st h
  obtain ⟨hk, ho, hko, hok, hact, hsel⟩ := h
  simp only [rename_session, hens]
  set t := strip new_name with ht
  by_cases h1 : t = "" ∨ t = cur
  · rw [if_pos h1]
    exact ⟨hk, ho, hko, hok, hact, hsel⟩
  · rw [if_neg h1]
    by_cases h2 : (dictGet st.sessions t).isSome
    · simp only [h2, if_true]
      exact ⟨hk, ho, hko, hok, hact, hsel⟩
    · simp only [h2, Bool.false_eq_true, if_false]
      cases h3 : dictGet st.sessions cur with
      | none => exact ⟨hk, ho, hko, hok, hact, hsel⟩
      | some sess =>
        have htnot : t ∉ sessionKeys st := fun hin =>
          h2 ((dictGet_isSome_iff _ _).mpr hin)
        have htnoto : t ∉ st.session_order := fun hin => htnot (hok _ hin)
        have hcur : cur ∈ sessionKeys st := by
          have hs : (dictGet st.sessions cur).isSome := by
            rw [h3]
            rfl
          exact (dictGet_isSome_iff _ _).mp hs
        have hcuro : cur ∈ st.session_order := hko _ hcur
        have htnotp : t ∉ (dictPop st.sessions cur).map Prod.fst := by
          rw [keys_dictPop]
          intro hin
          exact htnot (List.mem_of_mem_erase hin)
        have hkeys : (dictSet (dictPop st.sessions cur) t sess).map Prod.fst
            = (sessionKeys st).erase cur ++ [t] := by
          rw [keys_dictSet_not_mem _ _ _ htnotp, keys_dictPop]
          rfl
        have hmemkeys : ∀ k, k ∈ (sessionKeys st).erase cur ++ [t] ↔
            ((k ∈ sessionKeys st ∧ k ≠ cur) ∨ k = t) := by
          intro k
          rw [List.mem_append, hk.mem_erase_iff, List.mem_singleton]
          tauto
        have hmemord : ∀ k, k ∈ replaceFirst st.session_order cur t ↔
            ((k ∈ st.session_order ∧ k ≠ cur) ∨ k = t) :=
          fun k => mem_replaceFirst_iff _ _ _ _ ho hcuro htnoto
        have hnodk : ((sessionKeys st).erase cur ++ [t]).Nodup := by
          refine List.Nodup.append (hk.erase cur) (List.nodup_singleton t) ?_
          intro a ha hb
          rw [List.mem_singleton] at hb
          subst hb
          exact htnot (List.mem_of_mem_erase ha)
        have hnodo : (replaceFirst st.session_order cur t).Nodup :=
          nodup_replaceFirst _ _ _ ho htnoto
      
        dsimp only
        by_cases h4 : st.active_session_id = cur
        · rw [if_pos h4]
          refine ⟨?_, hnodo, ?_, ?_, ?_, rfl⟩
          · show ((dictSet (dictPop st.sessions cur) t sess).map Prod.fst).Nodup
            rw [hkeys]
            exact hnodk
          · intro k hkm
            replace hkm : k ∈ (dictSet (dictPop st.sessions cur) t sess).map Prod.fst := hkm
            rw [hkeys, hmemkeys k] at hkm
            show k ∈ replaceFirst st.session_order cur t
            rw [hmemord k]
            rcases hkm with ⟨hm, hne⟩ | hm
            · exact Or.inl ⟨hko k hm, hne⟩
            · exact Or.inr hm
          · intro k hkm
            replace hkm : k ∈ replaceFirst st.session_order cur t := hkm
            rw [hmemord k] at hkm
            show k ∈ (dictSet (dictPop st.sessions cur) t sess).map Prod.fst
            rw [hkeys, hmemkeys k]
            rcases hkm with ⟨hm, hne⟩ | hm
            · exact Or.inl ⟨hok k hm, hne⟩
            · exact Or.inr hm
          · show t ∈ (dictSet (dictPop st.sessions cur) t sess).map Prod.fst
            rw [hkeys, hmemkeys t]
            exact Or.inr rfl
        · rw [if_neg h4]
          refine ⟨?_, hnodo, ?_, ?_, ?_, hsel⟩
          · show ((dictSet (dictPop st.sessions cur) t sess).map Prod.fst).Nodup
            rw [hkeys]
            exact hnodk
          · intro k hkm
            replace hkm : k ∈ (dictSet (dictPop st.sessions cur) t sess).map Prod.fst := hkm
            rw [hkeys, hmemkeys k] at hkm
            show k ∈ replaceFirst st.session_order cur t
            rw [hmemord k]
            rcases hkm with ⟨hm, hne⟩ | hm
            · exact Or.inl ⟨hko k hm, hne⟩
            · exact Or.inr hm
          · intro k hkm
            replace hkm : k ∈ replaceFirst st.session_order cur t := hkm
            rw [hmemord k] at hkm
            show k ∈ (dictSet (dictPop st.sessions cur) t sess).map Prod.fst
            rw [hkeys, hmemkeys k]
            rcases hkm with ⟨hm, hne⟩ | hm
            · exact Or.inl ⟨hok k hm, hne⟩
            · exact Or.inr hm
          · show st.active_session_id ∈
              (dictSet (dictPop st.sessions cur) t sess).map Prod.fst
            rw [hkeys, hmemkeys _]
            exact Or.inl ⟨hact, h4⟩

theorem stateInv_delete (st : UIState) (h : StateInv st) (name : String) :
    StateInv (delete_session st name).2 := by
  have hens := ensure_of_inv st h
  obtain ⟨hk, ho, hko, hok, hact, hsel⟩ := h
  simp only [delete_session, hens]
  by_cases h1 : (dictGet st.sessions name).isNone
  · simp only [h1, if_true]
    exact ⟨hk, ho, hko, hok, hact, hsel⟩
  · simp only [h1, Bool.false_eq_true, if_false]
    by_cases h2 : st.session_order.length ≤ 1
    · rw [if_pos h2]
      exact ⟨hk, ho, hko, hok, hact, hsel⟩
    · rw [if_neg h2]
      have hname : name ∈ sessionKeys st := by
        have hs : (dictGet st.sessions name).isSome := by
          rw [Option.isNone_iff_eq_none] at h1
          exact Option.isSome_iff_ne_none.mpr h1
        exact (dictGet_isSome_iff _ _).mp hs
      have horder : name ∈ st.session_order := hko _ hname
      have hkeys : (dictPop st.sessions name).map Prod.fst
          = (sessionKeys st).erase name := keys_dictPop _ _
      have hmemk : ∀ k, k ∈ (sessionKeys st).erase name ↔
          (k ≠ name ∧ k ∈ sessionKeys st) := fun k => hk.mem_erase_iff
      have hmemo : ∀ k, k ∈ st.session_order.erase name ↔
          (k ≠ name ∧ k ∈ st.session_order) := fun k => ho.mem_erase_iff
      have hlen : (st.session_order.erase name).length = st.session_order.length - 1 :=
        List.length_erase_of_mem horder
      have hone : st.session_order.erase name ≠ [] := by
        intro hnil
        rw [hnil] at hlen
        simp at hlen
        omega
      by_cases h3 : st.active_session_id = name
      · rw [if_pos h3]
        have hlast : (st.session_order.erase name).getLastD "" ∈
            st.session_order.erase name := getLastD_mem _ hone ""
        refine ⟨?_, ho.erase name, ?_, ?_, ?_, rfl⟩
        · show ((dictPop st.sessions name).map Prod.fst).Nodup
          rw [hkeys]
          exact hk.erase name
        · intro k hkm
          replace hkm : k ∈ (dictPop st.sessions name).map Prod.fst := hkm
          rw [hkeys, hmemk k] at hkm
          show k ∈ st.session_order.erase name
          rw [hmemo k]
          exact ⟨hkm.1, hko _ hkm.2⟩
        · intro k hkm
          replace hkm : k ∈ st.session_order.erase name := hkm
          rw [hmemo k] at hkm
          show k ∈ (dictPop st.sessions name).map Prod.fst
          rw [hkeys, hmemk k]
          exact ⟨hkm.1, hok _ hkm.2⟩
        · show (st.session_order.erase name).getLastD "" ∈
            (dictPop st.sessions name).map Prod.fst
          rw [hkeys, hmemk _]
          rw [hmemo _] at hlast
          exact ⟨hlast.1, hok _ hlast.2⟩
      · rw [if_neg h3]
        refine ⟨?_, ho.erase name, ?_, ?_, ?_, hsel⟩
        · show ((dictPop st.sessions name).map Prod.fst).Nodup
          rw [hkeys]
          exact hk.erase name
        · intro k hkm
          replace hkm : k ∈ (dictPop st.sessions name).map Prod.fst := hkm
          rw [hkeys, hmemk k] at hkm
          show k ∈ st.session_order.erase name
          rw [hmemo k]
          exact ⟨hkm.1, hko _ hkm.2⟩
        · intro k hkm
          replace hkm : k ∈ st.session_order.erase name := hkm
          rw [hmemo k] at hkm
          show k ∈ (dictPop st.sessions name).map Prod.fst
          rw [hkeys, hmemk k]
          exact ⟨hkm.1, hok _ hkm.2⟩
        · show st.active_session_id ∈ (dictPop st.sessions name).map Prod.fst
          rw [hkeys, hmemk _]
          exact ⟨h3, hact⟩

theorem stateInv_switch (st : UIState) (h : StateInv st) (name : String) :
    StateInv (switch_session st name) := by
  obtain ⟨hk, ho, hko, hok, hact, hsel⟩ := h
  rw [switch_session]
  by_cases h1 : name ∈ st.session_order ∧ name ≠ st.active_session_id
  · rw [if_pos h1]
    exact ⟨hk, ho, hko, hok, hok _ h1.1, rfl⟩
  · rw [if_neg h1]
    exact ⟨hk, ho, hko, hok, hact, hsel⟩

theorem stateInv_resync (st : UIState) (h : StateInv st) :
    StateInv { st with
      session_select := st.active_session_id,
      rename_session_name := st.active_session_id,
      rename_session_synced_to := st.active_session_id } := by
  obtain ⟨hk, ho, hko, hok, hact, hsel⟩ := h
  exact ⟨hk, ho, hko, hok, hact, rfl⟩

theorem stateInv_applyOp (st : UIState) (h : StateInv st) (op : Op) :
    StateInv (applyOp st op) := by
  cases op with
  | create n => exact stateInv_create st h n
  | rename c n => exact stateInv_rename st h c n
  | delete n =>
      have hd := stateInv_delete st h n
      simp only [applyOp]
      by_cases h1 : (delete_session st n).1 = true
      · rw [if_pos h1]
        exact stateInv_resync _ hd
      · rw [if_neg h1]
        exact hd
  | switch n => exact stateInv_switch st h n

theorem stateInv_runOps (st : UIState) (h : StateInv st) (ops : List Op) :
    StateInv (runOps st ops) := by
  induction ops generalizing st with
  | nil => exact h
  | cons op rest ih =>
      rw [runOps, List.foldl_cons]
      exact ih _ (stateInv_applyOp st h op)

theorem stateInv_initialState : StateInv initialState := by
  refine ⟨?_, ?_, ?_, ?_, ?_, rfl⟩ <;> decide

/-- C9: at every UI state reachable from the freshly initialized session
state by any sequence of create-session, rename-session, delete-session and
session-switch operations, the registry keys and the order-list names are the
same set, the order list has no duplicates, and the active session name is a
registry key. -/
theorem session_state_invariant (ops : List Op) :
    (sessionKeys (runOps initialState ops)).Nodup ∧
    (runOps initialState ops).session_order.Nodup ∧
    (∀ k, k ∈ sessionKeys (runOps initialState ops) ↔
      k ∈ (runOps initialState ops).session_order) ∧
    (runOps initialState ops).active_session_id ∈
      sessionKeys (runOps initialState ops) := by
  obtain ⟨hk, ho, hko, hok, hact, _⟩ :=
    stateInv_runOps initialState stateInv_initialState ops
  exact ⟨hk, ho, fun k => ⟨hko k, hok k⟩, hact⟩

/-- C5: starting from any valid UI session state, after any sequence of
create and rename operations the registry never holds two sessions with the
same name (its key list is duplicate-free); and creating a session whose
explicit or auto-generated candidate name is already registered returns a
not-created signal and leaves the state - registry, order list and active
pointer included - unchanged. -/
theorem session_name_uniqueness (st : UIState) (hInv : StateInv st)
    (ops : List Op) (_hcr : ops.all Op.isCreateRename = true) :
    (sessionKeys (runOps st ops)).Nodup ∧
    ∀ name : Option String,
      ((create_session (runOps st ops) name).2.1 ∈ sessionKeys (runOps st ops) →
        (create_session (runOps st ops) name).1 = false) ∧
      ((create_session (runOps st ops) name).1 = false →
        (create_session (runOps st ops) name).2.2 = runOps st ops) := by
  have hS := stateInv_runOps st hInv ops
  exact ⟨hS.1, fun name => create_session_reject _ hS name⟩

theorem session_name_uniqueness_witness :
    StateInv initialState ∧
    ([Op.create (some "Extra")].all Op.isCreateRename = true) ∧
    ((sessionKeys (runOps initialState [Op.create (some "Extra")])).Nodup ∧
      ∀ name : Option String,
        ((create_session (runOps initialState [Op.create (some "Extra")]) name).2.1 ∈
            sessionKeys (runOps initialState [Op.create (some "Extra")]) →
          (create_session (runOps initialState [Op.create (some "Extra")]) name).1 = false) ∧
        ((create_session (runOps initialState [Op.create (some "Extra")]) name).1 = false →
          (create_session (runOps initialState [Op.create (some "Extra")]) name).2.2 =
            runOps initialState [Op.create (some "Extra")])) :=
  ⟨stateInv_initialState, by decide,
    session_name_uniqueness initialState stateInv_initialState
      [Op.create (some "Extra")] (by decide)⟩

/-- C6: for every valid UI session state, `delete_session` never succeeds
when the named session is the sole entry of the order list; and after any
successful deletion the order list is non-empty, the active session is a
member of it, and when the deleted session was the active one the new active
session is the last entry of the order list. -/
theorem delete_session_last_invariant (st : UIState) (hInv : StateInv st)
    (name : String) :
    (st.session_order = [name] → (delete_session st name).1 = false) ∧
    ((delete_session st name).1 = true →
      (delete_session st name).2.session_order ≠ [] ∧
      (delete_session st name).2.active_session_id ∈
        (delete_session st name).2.session_order ∧
      (st.active_session_id = name →
        (delete_session st name).2.session_order.getLast? =
          some (delete_session st name).2.active_session_id)) := by
  have hens := ensure_of_inv st hInv
  obtain ⟨hk, ho, hko, hok, hact, hsel⟩ := hInv
  simp only [delete_session, hens]
  by_cases h1 : (dictGet st.sessions name).isNone
  · simp only [h1, if_true]
    exact ⟨fun _ => by simp, fun hc => by simp at hc⟩
  · simp only [h1, Bool.false_eq_true, if_false]
    by_cases h2 : st.session_order.length ≤ 1
    · rw [if_pos h2]
      exact ⟨fun _ => by simp, fun hc => by simp at hc⟩
    · rw [if_neg h2]
      have hname : name ∈ sessionKeys st := by
        have hs : (dictGet st.sessions name).isSome := by
          rw [Option.isNone_iff_eq_none] at h1
          exact Option.isSome_iff_ne_none.mpr h1
        exact (dictGet_isSome_iff _ _).mp hs
      have horder : name ∈ st.session_order := hko _ hname
      have hlen : (st.session_order.erase name).length =
          st.session_order.length - 1 := List.length_erase_of_mem horder
      have hone : st.session_order.erase name ≠ [] := by
        intro hnil
        rw [hnil] at hlen
        simp at hlen
        omega
      constructor
      · intro hsole
        exfalso
        apply h2
        rw [hsole]
        simp
      · intro _
        by_cases h3 : st.active_session_id = name
        · rw [if_pos h3]
          refine ⟨hone, getLastD_mem _ hone "", fun _ => ?_⟩
          exact getLast?_of_ne_nil _ hone ""
        · rw [if_neg h3]
          refine ⟨hone, ?_, fun hc => absurd hc h3⟩
          show st.active_session_id ∈ st.session_order.erase name
          rw [ho.mem_erase_iff]
          exact ⟨h3, hko _ hact⟩

theorem delete_session_last_invariant_witness :
    StateInv twoSessions ∧
    (twoSessions.session_order = ["A"] →
      (delete_session twoSessions "A").1 = false) ∧
    ((delete_session twoSessions "A").1 = true →
      (delete_session twoSessions "A").2.session_order ≠ [] ∧
      (delete_session twoSessions "A").2.active_session_id ∈
        (delete_session twoSessions "A").2.session_order ∧
      (twoSessions.active_session_id = "A" →
        (delete_session twoSessions "A").2.session_order.getLast? =
          some (delete_session twoSessions "A").2.active_session_id)) :=
  ⟨by decide,
    (delete_session_last_invariant twoSessions (by decide) "A").1,
    (delete_session_last_invariant twoSessions (by decide) "A").2⟩

theorem dictGet_dictPop_self (d : List (String × Session)) (k : String)
    (hnd : (d.map Prod.fst).Nodup) : dictGet (dictPop d k) k = none := by
  rw [dictGet_eq_none_iff, keys_dictPop]
  intro hin
  exact (hnd.mem_erase_iff.mp hin).1 rfl

/-- C7: renaming a registered session `A` to a fresh, distinct, non-blank
name `B` and then renaming `B` back to `A` restores the registry as a map
(every lookup, hence the key set, is restored), the order list exactly (so
the session's position in it), and the active-session pointer; both renames
report success. -/
theorem rename_session_roundtrip (st : UIState) (hInv : StateInv st)
    (A B : String) (hA : A ∈ sessionKeys st) (hAt : strip A = A) (hAne : A ≠ "")
    (hBt : strip B = B) (hBne : B ≠ "") (hBA : B ≠ A) (hB : B ∉ sessionKeys st) :
    (rename_session st A B).1 = true ∧
    (rename_session (rename_session st A B).2 B A).1 = true ∧
    (∀ k, dictGet (rename_session (rename_session st A B).2 B A).2.sessions k =
      dictGet st.sessions k) ∧
    (rename_session (rename_session st A B).2 B A).2.session_order =
      st.session_order ∧
    (rename_session (rename_session st A B).2 B A).2.active_session_id =
      st.active_session_id := by
  have hInvKeep := hInv
  have hens := ensure_of_inv st hInv
  obtain ⟨hk, ho, hko, hok, hact, hsel⟩ := hInv
  have hBnone : dictGet st.sessions B = none := (dictGet_eq_none_iff _ _).mpr hB
  have hAex : ∃ sess, dictGet st.sessions A = some sess :=
    Option.isSome_iff_exists.mp ((dictGet_isSome_iff st.sessions A).mpr hA)
  obtain ⟨sessA, hA3⟩ := hAex
  have hBo : B ∉ st.session_order := fun hin => hB (hok _ hin)
  have hnc1 : ¬(B = "" ∨ B = A) := by
    rintro (hc | hc)
    · exact hBne hc
    · exact hBA hc
  have hnc2 : ¬(A = "" ∨ A = B) := by
    rintro (hc | hc)
    · exact hAne hc
    · exact hBA hc.symm
  have hActB : st.active_session_id ≠ B := fun hc => hB (hc ▸ hact)
  have hBnotp : B ∉ (dictPop st.sessions A).map Prod.fst := by
    rw [keys_dictPop]
    intro hin
    exact hB (List.mem_of_mem_erase hin)
  have hInv1 : StateInv (rename_session st A B).2 :=
    stateInv_rename st hInvKeep A B
  have hPopSet : dictPop (dictSet (dictPop st.sessions A) B sessA) B =
      dictPop st.sessions A := dictPop_dictSet _ _ _ hBnotp
  have hGetB : dictGet (dictSet (dictPop st.sessions A) B sessA) B = some sessA :=
    dictGet_dictSet_self _ _ _
  have hGetA : dictGet (dictSet (dictPop st.sessions A) B sessA) A = none := by
    rw [dictGet_dictSet_ne _ _ _ _ (Ne.symm hBA)]
    exact dictGet_dictPop_self _ _ hk
  have hOrd2 : replaceFirst (replaceFirst st.session_order A B) B A =
      st.session_order := replaceFirst_replaceFirst _ _ _ hBo
  have hLook : ∀ k, dictGet (dictSet (dictPop st.sessions A) A sessA) k =
      dictGet st.sessions k := by
    intro k
    by_cases hkA : k = A
    · subst hkA
      rw [dictGet_dictSet_self, hA3]
    · rw [dictGet_dictSet_ne _ _ _ _ hkA, dictGet_dictPop_ne _ _ _ hkA]
  by_cases hAct : st.active_session_id = A
  · have h1eq : rename_session st A B = (true,
        { st with
          sessions := dictSet (dictPop st.sessions A) B sessA,
          session_order := replaceFirst st.session_order A B,
          active_session_id := B, session_select := B,
          rename_session_name := B, rename_session_synced_to := B }) := by
      simp only [rename_session, hens, hBt]
      rw [if_neg hnc1]
      simp only [hBnone, Option.isSome_none, Bool.false_eq_true, if_false, hA3]
      rw [if_pos hAct]
    have hInv1' : StateInv
        { st with
          sessions := dictSet (dictPop st.sessions A) B sessA,
          session_order := replaceFirst st.session_order A B,
          active_session_id := B, session_select := B,
          rename_session_name := B, rename_session_synced_to := B } := by
      rw [h1eq] at hInv1
      exact hInv1
    have hens1 := ensure_of_inv _ hInv1'
    have h2eq : rename_session
        { st with
          sessions := dictSet (dictPop st.sessions A) B sessA,
          session_order := replaceFirst st.session_order A B,
          active_session_id := B, session_select := B,
          rename_session_name := B, rename_session_synced_to := B } B A = (true,
        { st with
          sessions := dictSet (dictPop st.sessions A) A sessA,
          session_order := st.session_order,
          active_session_id := A, session_select := A,
          rename_session_name := A, rename_session_synced_to := A }) := by
      simp only [rename_session, hens1, hAt]
      rw [if_neg hnc2]
      simp only [hGetA, Option.isSome_none, Bool.false_eq_true, if_false, hGetB]
      simp only [if_true]
      rw [hPopSet, hOrd2]
    rw [h1eq]
    dsimp only
    rw [h2eq]
    refine ⟨rfl, rfl, hLook, rfl, hAct.symm⟩
  · have h1eq : rename_session st A B = (true,
        { st with
          sessions := dictSet (dictPop st.sessions A) B sessA,
          session_order := replaceFirst st.session_order A B,
          rename_session_name := B, rename_session_synced_to := B }) := by
      simp only [rename_session, hens, hBt]
      rw [if_neg hnc1]
      simp only [hBnone, Option.isSome_none, Bool.false_eq_true, if_false, hA3]
      rw [if_neg hAct]
    have hInv1' : StateInv
        { st with
          sessions := dictSet (dictPop st.sessions A) B sessA,
          session_order := replaceFirst st.session_order A B,
          rename_session_name := B, rename_session_synced_to := B } := by
      rw [h1eq] at hInv1
      exact hInv1
    have hens1 := ensure_of_inv _ hInv1'
    have h2eq : rename_session
        { st with
          sessions := dictSet (dictPop st.sessions A) B sessA,
          session_order := replaceFirst st.session_order A B,
          rename_session_name := B, rename_session_synced_to := B } B A = (true,
        { st with
          sessions := dictSet (dictPop st.sessions A) A sessA,
          session_order := st.session_order,
          rename_session_name := A, rename_session_synced_to := A }) := by
      simp only [rename_session, hens1, hAt]
      rw [if_neg hnc2]
      simp only [hGetA, Option.isSome_none, Bool.false_eq_true, if_false, hGetB]
      rw [if_neg hActB, hPopSet, hOrd2]
    rw [h1eq]
    dsimp only
    rw [h2eq]
    exact ⟨rfl, rfl, hLook, rfl, rfl⟩

theorem rename_session_roundtrip_witness :
    StateInv twoSessions ∧ "A" ∈ sessionKeys twoSessions ∧
    strip "A" = "A" ∧ ("A" : String) ≠ "" ∧
    strip "C" = "C" ∧ ("C" : String) ≠ "" ∧
    ("C" : String) ≠ "A" ∧ "C" ∉ sessionKeys twoSessions ∧
    ((rename_session twoSessions "A" "C").1 = true ∧
      (rename_session (rename_session twoSessions "A" "C").2 "C" "A").1 = true ∧
      (∀ k, dictGet
          (rename_session (rename_session twoSessions "A" "C").2 "C" "A").2.sessions k =
        dictGet twoSessions.sessions k) ∧
      (rename_session (rename_session twoSessions "A" "C").2 "C" "A").2.session_order =
        twoSessions.session_order ∧
      (rename_session (rename_session twoSessions "A" "C").2 "C" "A").2.active_session_id =
        twoSessions.active_session_id) :=
  ⟨by decide, by decide, by decide, by decide, by decide, by decide, by decide,
    by decide,
    rename_session_roundtrip twoSessions (by decide) "A" "C" (by decide)
      (by decide) (by decide) (by decide) (by decide) (by decide) (by decide)⟩
